import Mathlib

/-!
Shallow embedding of `src/card_scoresheet.py` (a Streamlit scoresheet for a
four-player card game) and proofs about its scoring, ranking and CSV logic.

Modelling conventions:
* A Python dict round `{player: int_score}` is an association list
  `List (String × Int)`; in every reachable state the keys are the four
  configured player names (distinct in the theorems that need it, mirroring
  the dict semantics, where duplicate keys collapse).
* A pandas `DataFrame` built by `recalc` is a list of rows
  `(roundNumber, scores-in-player-order)`.  `recalc` raises `KeyError`
  (modelled as `Except.error`) when a configured player is a column of the
  frame for no round, exactly as `df2[p]` does.
* `pd.to_numeric(...).fillna(0).astype(int)` on the reachable frames (whose
  present cells are always Python ints) is: a missing cell becomes `0`, a
  present cell keeps its integer value.
* `totals_df.sort_values("Total", ascending=True)` calls numpy's introsort,
  which on fewer than 16 rows (here always 4, one per player) runs plain
  insertion sort, a stable sort; it is embedded as `List.insertionSort`
  on the `Total` component.
* CSV text is modelled at character level.  `pd.read_csv` for the simple
  frames this app produces: split into non-blank lines, first line is the
  header, cells are comma-separated (player names never contain commas,
  quotes or newlines in the theorems that parse them); a data row with more
  fields than the header is a parser error; `int(cell)` succeeds on decimal
  integer literals and on decimal float literals (truncating toward zero,
  as Python `int` does on the float that pandas parsed) and raises
  otherwise, including on the NaN of an empty or absent cell.
-/

namespace CardScoresheet

/-- A round: the Python dict mapping player name to entered score. -/
abbrev Round := List (String × Int)

/-- Dict lookup (first match; keys are distinct in reachable states). -/
def rget (p : String) : Round → Option Int
  | [] => none
  | (q, v) :: rest => if q = p then some v else rget p rest

/-- The integer a player's cell contributes to the table: present cells keep
their value, missing cells are coerced to 0
(`pd.to_numeric(...).fillna(0).astype(int)`). -/
def cell (r : Round) (p : String) : Int := (rget p r).getD 0

/-- `True` iff the player is a key of some round, i.e. a column of
`pd.DataFrame(rounds)`. -/
def columnPresent (rounds : List Round) (p : String) : Bool :=
  rounds.any fun r => (rget p r).isSome

/-- Pair list elements with positions `n, n+1, ...` (the `range(1, len+1)`
numbering and the positional `Rank` column). -/
def withIdx (n : Nat) : List α → List (Nat × α)
  | [] => []
  | a :: l => (n, a) :: withIdx (n + 1) l

/-- One row of the recalculated frame: round number, then the four players'
scores in configured order. -/
abbrev TableRow := Nat × List Int

/-- `recalc(df, players)` from the source: empty frame for an empty ledger;
otherwise coerce each player column to integers (missing cells to 0) and
renumber `Round` as `1..N`.  Accessing a player column that the frame does
not have (`df2[p]`) raises `KeyError`, modelled as `Except.error`. -/
def recalc (rounds : List Round) (players : List String) :
    Except String (List TableRow) :=
  if rounds.isEmpty then .ok []
  else if players.all (columnPresent rounds) then
    .ok ((withIdx 1 rounds).map fun ir => (ir.1, players.map (cell ir.2)))
  else .error "KeyError"

/-- `Total` ordering used by `sort_values("Total", ascending=True)`. -/
def totalLE (a b : String × Int) : Prop := a.2 ≤ b.2

instance : DecidableRel totalLE := fun a b => Int.decLe a.2 b.2

instance : IsTotal (String × Int) totalLE := ⟨fun a b => Int.le_total a.2 b.2⟩

instance : IsTrans (String × Int) totalLE := ⟨fun _ _ _ => Int.le_trans⟩

/-- The `Total` series over the recalculated frame `df`: all zeros for an
empty ledger, otherwise `df[players].sum()` column by column. -/
def totalsFromTable (df : List TableRow) (players : List String) :
    List (String × Int) :=
  if df.isEmpty then players.map fun p => (p, 0)
  else (withIdx 0 players).map fun jp =>
    (jp.2, (df.map fun row => row.2.getD jp.1 0).sum)

/-- `totals_and_ranks`: sort the totals ascending (numpy insertion sort on
4 rows, stable) and assign `Rank = 1..N` by sorted position; each
leaderboard row is `(Rank, Player, Total)`. -/
def totalsAndRanks (df : List TableRow) (players : List String) :
    List (String × Int) × List (Nat × String × Int) :=
  let sorted := List.insertionSort totalLE (totalsFromTable df players)
  (sorted, withIdx 1 sorted)

/-- The add-round button handler: appends the dict
`{players[i]: int(s_i)}`; the number inputs enforce `min_value=0`, hence
`Nat` scores. -/
def addRound (rounds : List Round) (players : List String)
    (scores : List Nat) : List Round :=
  rounds ++ [players.zip (scores.map Int.ofNat)]

/-- The delete-last-round button handler: `pop()` guarded by non-emptiness,
i.e. drop the last round, a no-op on the empty ledger. -/
def deleteLastRound (rounds : List Round) : List Round := rounds.dropLast

/-- The reset button handler: `st.session_state.rounds = []`. -/
def resetGame (_ : List Round) : List Round := ([] : List Round)

/-! ### CSV model -/

/-- Split a character list at every occurrence of `sep`; always returns at
least one (possibly empty) part. -/
def splitOnChar (sep : Char) : List Char → List (List Char)
  | [] => [[]]
  | c :: rest =>
    let r := splitOnChar sep rest
    if c = sep then [] :: r else (c :: r.headD []) :: r.tail

/-- Interleave `sep` between the parts (inverse of `splitOnChar`). -/
def joinChar (sep : Char) : List (List Char) → List Char
  | [] => []
  | [x] => x
  | x :: xs => x ++ sep :: joinChar sep xs

/-- Decimal digits of a natural number, most significant first
(the characters Python `str` prints for a non-negative int). -/
def natChars (n : Nat) : List Char :=
  if h : n < 10 then [Char.ofNat (48 + n)]
  else natChars (n / 10) ++ [Char.ofNat (48 + n % 10)]
  decreasing_by exact Nat.div_lt_self (Nat.lt_of_lt_of_le (by decide) (Nat.not_lt.mp h)) (by decide)

/-- The characters Python `str` prints for an int: a minus sign for
negatives, then the decimal digits. -/
def intChars (i : Int) : List Char :=
  if i < 0 then '-' :: natChars i.natAbs else natChars i.toNat

/-- Value of a decimal digit character. -/
def digitVal (c : Char) : Nat := c.toNat - 48

/-- Read a digit string, most significant first. -/
def readNat (l : List Char) : Nat := l.foldl (fun a c => 10 * a + digitVal c) 0

/-- `True` iff every character is a decimal digit. -/
def allDigits (l : List Char) : Bool := l.all Char.isDigit

/-- Python `int` applied to the non-negative value pandas parsed from a
cell: a non-empty digit string is its decimal value; a float literal
`d*.d*` (at least one digit) truncates to its integer part; anything else
raises (for an empty cell pandas yields NaN, on which `int` raises too). -/
def coerceMag (l : List Char) : Except String Int :=
  if !l.isEmpty && allDigits l then .ok (readNat l)
  else
    match splitOnChar '.' l with
    | [ip, fp] =>
      if (!ip.isEmpty || !fp.isEmpty) && allDigits ip && allDigits fp then
        .ok (readNat ip)
      else .error "invalid literal for int()"
    | _ => .error "invalid literal for int()"

/-- Python `int` on a parsed cell, signs included: truncation is toward
zero, so the magnitude is coerced and then negated. -/
def coerceCell (l : List Char) : Except String Int :=
  if l.headD ' ' = '-' then (coerceMag l.tail).map Int.neg else coerceMag l

/-- `pd.read_csv` for the frames this app round-trips: non-blank lines
(blank lines, including a trailing one, are skipped), the first line the
comma-separated header, the rest comma-separated data rows; a row with more
fields than the header is a tokenizing error; empty input has no columns to
parse. -/
def parseCSV (text : String) : Except String (List (List Char) × List (List (List Char))) :=
  match (splitOnChar '\n' text.data).filter (fun l => !l.isEmpty) with
  | [] => .error "No columns to parse from file"
  | header :: body =>
    let cols := splitOnChar ',' header
    let rows := body.map (splitOnChar ',')
    if rows.any fun r => cols.length < r.length then
      .error "Error tokenizing data"
    else .ok (cols, rows)

/-- Index of the first element satisfying the predicate. -/
def firstIdx (p : α → Bool) : List α → Option Nat
  | [] => none
  | a :: l => if p a then some 0 else (firstIdx p l).map (· + 1)

/-- `int(row.get(players[i], 0))`: a player whose name is no column of the
frame defaults to the int 0; otherwise the cell at that column (NaN, i.e.
an absent trailing field, when the row is short) is coerced. -/
def getCell (cols : List (List Char)) (row : List (List Char)) (p : String) :
    Except String Int :=
  match firstIdx (· == p.data) cols with
  | none => .ok 0
  | some j => coerceCell (row.getD j [])

/-- Error-propagating map: the first raising element aborts the whole
traversal (the `for` loops inside the import `try`). -/
def mapEx (f : α → Except String β) : List α → Except String (List β)
  | [] => .ok []
  | a :: l =>
    match f a with
    | .error e => .error e
    | .ok b =>
      match mapEx f l with
      | .error e => .error e
      | .ok bs => .ok (b :: bs)

/-- One iteration of the import loop:
`{players[i]: int(row.get(players[i], 0)) for i in range(4)}`, each
player's column read and coerced, the first raising cell aborting. -/
def importRow (players : List String) (cols : List (List Char))
    (row : List (List Char)) : Except String Round :=
  match mapEx (getCell cols row) players with
  | .error e => .error e
  | .ok scores => .ok (players.zip scores)

/-- The body of the import `try` block: parse the CSV, then rebuild the
rounds list row by row, reading each configured player's column. -/
def importCSV (players : List String) (text : String) :
    Except String (List Round) :=
  match parseCSV text with
  | .error e => .error e
  | .ok (cols, rows) => mapEx (importRow players cols) rows

/-- The import button handler: on success the session's rounds are replaced
wholesale; on any exception the prior rounds are untouched and the single
`st.error` message is shown. -/
def importHandler (prior : List Round) (players : List String)
    (text : String) : List Round × Option String :=
  match importCSV players text with
  | .ok rs => (rs, none)
  | .error e => (prior, some ("Could not import. Error: " ++ e))

/-- The header cells `to_csv` writes: `Round` then the player names. -/
def headerCells (players : List String) : List (List Char) :=
  "Round".data :: players.map String.data

/-- The header line: cells joined with commas. -/
def headerLine (players : List String) : List Char :=
  joinChar ',' (headerCells players)

/-- The cells of one data row: the round number then each score, printed
as Python `str` prints ints. -/
def rowCells (row : TableRow) : List (List Char) :=
  natChars row.1 :: row.2.map intChars

/-- One data line: cells joined with commas. -/
def rowLine (row : TableRow) : List Char :=
  joinChar ',' (rowCells row)

/-- `df.to_csv(index=False).encode("utf-8")`: the header line
`Round,<players>` then one line per row, every line newline-terminated. -/
def exportCSV (players : List String) (df : List TableRow) : String :=
  ⟨joinChar '\x0a' ((headerLine players :: df.map rowLine) ++ [[]])⟩

/-! ### Basic lemmas about the embedding -/

/-- Per-player total over the ledger itself: the sum of the player's
(coerced) cell across all rounds. -/
def colTotal (rounds : List Round) (p : String) : Int :=
  (rounds.map fun r => cell r p).sum

theorem withIdx_length (n : Nat) (l : List α) : (withIdx n l).length = l.length := by
  induction l generalizing n with
  | nil => rfl
  | cons a l ih => simp [withIdx, ih]

theorem withIdx_map_comp (f : α → β) (l : List α) (n : Nat) :
    (withIdx n l).map (fun x => f x.2) = l.map f := by
  induction l generalizing n with
  | nil => rfl
  | cons a l ih => simp [withIdx, ih]

theorem withIdx_map (f : α → β) (l : List α) (n : Nat) :
    withIdx n (l.map f) = (withIdx n l).map fun x => (x.1, f x.2) := by
  induction l generalizing n with
  | nil => rfl
  | cons a l ih => simp [withIdx, ih]

theorem withIdx_map_fst (n : Nat) (l : List α) :
    (withIdx n l).map Prod.fst = List.range' n l.length := by
  induction l generalizing n with
  | nil => rfl
  | cons a l ih => simp [withIdx, ih, List.range'_succ]

theorem withIdx_snd (n : Nat) (l : List α) : (withIdx n l).map Prod.snd = l := by
  induction l generalizing n with
  | nil => rfl
  | cons a l ih => simp [withIdx, ih]

theorem snd_mem_of_mem_withIdx {x : Nat × α} {n : Nat} {l : List α}
    (h : x ∈ withIdx n l) : x.2 ∈ l := by
  induction l generalizing n with
  | nil => simp [withIdx] at h
  | cons a l ih =>
    rcases List.mem_cons.mp h with h | h
    · simp [h]
    · exact List.mem_cons_of_mem a (ih h)

theorem mem_withIdx_of_getElem? {l : List α} {j : Nat} {a : α}
    (h : l[j]? = some a) (n : Nat) : (n + j, a) ∈ withIdx n l := by
  induction l generalizing j n with
  | nil => simp at h
  | cons b l ih =>
    cases j with
    | zero =>
      simp at h
      subst h
      simp [withIdx]
    | succ j =>
      simp only [List.getElem?_cons_succ] at h
      have h2 := ih h (n + 1)
      have ha : n + (j + 1) = n + 1 + j := by omega
      show (n + (j + 1), a) ∈ (n, b) :: withIdx (n + 1) l
      rw [ha]
      exact List.mem_cons_of_mem _ h2

theorem withIdx_filter_map (q : α → Bool) (f : α → β) (l : List α) (n : Nat) :
    ((withIdx n l).filter fun e => q e.2).map (fun e => f e.2)
      = (l.filter q).map f := by
  induction l generalizing n with
  | nil => rfl
  | cons a l ih =>
    by_cases h : q a
    · simp [withIdx, List.filter_cons, h, ih]
    · simp only [Bool.not_eq_true] at h
      simp [withIdx, List.filter_cons, h, ih]

theorem withIdx_pairwise {R : α → α → Prop} {l : List α} (n : Nat)
    (h : l.Pairwise R) : (withIdx n l).Pairwise fun a b => R a.2 b.2 := by
  have h2 : ((withIdx n l).map Prod.snd).Pairwise R := by
    rw [withIdx_snd]
    exact h
  exact (List.pairwise_map.mp h2)

theorem withIdx_map_eq (l : List α) (F : Nat → α → β) (G : α → β) (n : Nat)
    (h : ∀ j a, l[j]? = some a → F (n + j) a = G a) :
    (withIdx n l).map (fun x => F x.1 x.2) = l.map G := by
  induction l generalizing n with
  | nil => rfl
  | cons a l ih =>
    simp only [withIdx, List.map_cons]
    have h0 : F n a = G a := by simpa using h 0 a (by simp)
    rw [h0, ih (n + 1) fun j b hj => by
      have := h (j + 1) b (by simpa using hj)
      simpa [Nat.add_assoc, Nat.add_comm 1 j] using this]

/-! ### Stability of the sort -/

theorem filter_orderedInsert_of_neg (r : α → α → Prop) [DecidableRel r]
    (p : α → Bool) (a : α) (l : List α) (ha : p a = false) :
    (List.orderedInsert r a l).filter p = l.filter p := by
  induction l with
  | nil => simp [List.orderedInsert, ha]
  | cons b l ih =>
    by_cases hr : r a b
    · simp [List.orderedInsert, hr, List.filter_cons, ha]
    · simp [List.orderedInsert, hr, List.filter_cons, ih]

theorem filter_orderedInsert_of_pos (r : α → α → Prop) [DecidableRel r]
    (p : α → Bool) (a : α) (l : List α) (ha : p a = true)
    (h : ∀ b, ¬r a b → p b = false) :
    (List.orderedInsert r a l).filter p = a :: l.filter p := by
  induction l with
  | nil => simp [List.orderedInsert, ha]
  | cons b l ih =>
    by_cases hr : r a b
    · simp [List.orderedInsert, hr, List.filter_cons, ha]
    · simp [List.orderedInsert, hr, List.filter_cons, h b hr, ih]

theorem filter_insertionSort (r : α → α → Prop) [DecidableRel r] (p : α → Bool)
    (h : ∀ a b, p a = true → ¬r a b → p b = false) (l : List α) :
    (List.insertionSort r l).filter p = l.filter p := by
  induction l with
  | nil => rfl
  | cons a l ih =>
    simp only [List.insertionSort]
    cases ha : p a with
    | true => rw [filter_orderedInsert_of_pos r p _ _ ha (fun b => h a b ha), ih,
        List.filter_cons_of_pos ha]
    | false => rw [filter_orderedInsert_of_neg r p _ _ ha, ih, List.filter_cons_of_neg (by simp [ha])]

/-! ### The totals bridge -/

theorem recalc_empty {players : List String} : recalc [] players = .ok [] := rfl

theorem recalc_ok_nonempty {rounds : List Round} {players : List String}
    {df : List TableRow} (h : recalc rounds players = .ok df)
    (hne : rounds.isEmpty = false) :
    df = (withIdx 1 rounds).map fun ir => (ir.1, players.map (cell ir.2)) := by
  unfold recalc at h
  rw [hne] at h
  simp only [Bool.false_eq_true, if_false] at h
  by_cases hall : players.all (columnPresent rounds) = true
  · rw [if_pos hall] at h
    exact (Except.ok.inj h).symm
  · rw [if_neg hall] at h
    cases h

theorem recalc_ok_empty {rounds : List Round} {players : List String}
    {df : List TableRow} (h : recalc rounds players = .ok df)
    (he : rounds.isEmpty = true) : rounds = [] ∧ df = [] := by
  have hr : rounds = [] := List.isEmpty_iff.mp he
  subst hr
  refine ⟨rfl, ?_⟩
  unfold recalc at h
  simp at h
  exact h

theorem colsum_recalc {rounds : List Round} {players : List String}
    {df : List TableRow} (h : recalc rounds players = .ok df)
    {j : Nat} {p : String} (hj : players[j]? = some p) :
    df.map (fun row => row.2.getD j 0) = rounds.map fun r => cell r p := by
  cases he : rounds.isEmpty with
  | true =>
    obtain ⟨hr, hd⟩ := recalc_ok_empty h he
    subst hr hd
    rfl
  | false =>
    have hdf := recalc_ok_nonempty h he
    subst hdf
    rw [List.map_map]
    have hfun : ((fun row : TableRow => row.2.getD j 0) ∘ fun ir : Nat × Round =>
        (ir.1, players.map (cell ir.2))) = fun ir : Nat × Round =>
        (players.map (cell ir.2)).getD j 0 := rfl
    rw [hfun]
    have heach : ∀ r : Round, (players.map (cell r)).getD j 0 = cell r p := by
      intro r
      rw [List.getD_eq_getElem?_getD, List.getElem?_map, hj]
      rfl
    rw [withIdx_map_comp (fun r => (players.map (cell r)).getD j 0) rounds 1]
    exact List.map_congr_left fun r _ => heach r

theorem totalsFromTable_recalc {rounds : List Round} {players : List String}
    {df : List TableRow} (h : recalc rounds players = .ok df) :
    totalsFromTable df players = players.map fun p => (p, colTotal rounds p) := by
  cases he : rounds.isEmpty with
  | true =>
    obtain ⟨hr, hd⟩ := recalc_ok_empty h he
    subst hr hd
    simp [totalsFromTable, colTotal]
  | false =>
    have hdf := recalc_ok_nonempty h he
    have hdfne : df.isEmpty = false := by
      subst hdf
      cases rounds with
      | nil => simp at he
      | cons r rs => simp [withIdx]
    unfold totalsFromTable
    rw [hdfne]
    simp only [Bool.false_eq_true, if_false]
    refine withIdx_map_eq players (fun j p => (p, (df.map fun row => row.2.getD j 0).sum))
      (fun p => (p, colTotal rounds p)) 0 ?_
    intro j p hj
    simp only [Nat.zero_add]
    rw [colsum_recalc h hj]
    rfl

/-! ### Claim theorems: sorting, totals, ranks, deletion, recalc KeyError -/

/-- C1: `compute_totals_and_leaderboard` sorts players by `Total` ascending
with a stable sort: for every ledger, the players whose total is any given
value `t` appear in the leaderboard in the player list's original relative
order; and on the spec's scenario (rounds {A:5,B:3,C:5,D:1} then
{A:2,B:2,C:2,D:2}) the leaderboard is
[(1,D,3),(2,B,5),(3,A,7),(4,C,7)], with A before C. -/
theorem C1_leaderboard_stable_sort :
    (∀ (rounds : List Round) (players : List String) (df : List TableRow),
      recalc rounds players = .ok df → ∀ t : Int,
        (((totalsAndRanks df players).2.filter fun e => e.2.2 == t).map fun e => e.2.1)
          = players.filter fun p => colTotal rounds p == t)
    ∧ (recalc (addRound (addRound [] ["A", "B", "C", "D"] [5, 3, 5, 1])
          ["A", "B", "C", "D"] [2, 2, 2, 2]) ["A", "B", "C", "D"]).map
        (fun df => (totalsAndRanks df ["A", "B", "C", "D"]).2)
        = .ok [(1, "D", 3), (2, "B", 5), (3, "A", 7), (4, "C", 7)] := by
  constructor
  · intro rounds players df h t
    show (((withIdx 1 (List.insertionSort totalLE (totalsFromTable df players))).filter
        fun e => e.2.2 == t).map fun e => e.2.1) = _
    rw [withIdx_filter_map (fun x : String × Int => x.2 == t) (fun x : String × Int => x.1)]
    rw [filter_insertionSort totalLE (fun x : String × Int => x.2 == t) ?stab]
    case stab =>
      intro a b ha hr
      have ha2 : a.2 = t := by simpa using ha
      have hb2 : b.2 < a.2 := by
        have : ¬a.2 ≤ b.2 := hr
        omega
      simp only [beq_eq_false_iff_ne, ne_eq]
      omega
    rw [totalsFromTable_recalc h, List.filter_map]
    have hcomp : ((fun x : String × Int => x.2 == t) ∘ fun p => (p, colTotal rounds p))
        = fun p => colTotal rounds p == t := rfl
    rw [hcomp, List.map_map]
    exact List.map_id _
  · rfl

/-- Witness for C1: the stability equation instantiated on the spec's
scenario at total 7 puts A before C. -/
theorem C1_leaderboard_stable_sort_witness :
    (((totalsAndRanks [(1, [5, 3, 5, 1]), (2, [2, 2, 2, 2])] ["A", "B", "C", "D"]).2.filter
        fun e => e.2.2 == (7 : Int)).map fun e => e.2.1) = ["A", "C"] :=
  (C1_leaderboard_stable_sort.1
    [[("A", 5), ("B", 3), ("C", 5), ("D", 1)], [("A", 2), ("B", 2), ("C", 2), ("D", 2)]]
    ["A", "B", "C", "D"] [(1, [5, 3, 5, 1]), (2, [2, 2, 2, 2])] rfl 7).trans rfl

/-- C2: the import is all-or-nothing: whenever the body of the `try` block
raises, the session's prior rounds are returned unmodified together with
exactly one error message. -/
theorem C2_import_all_or_nothing (prior : List Round) (players : List String)
    (text : String) (e : String) (h : importCSV players text = .error e) :
    importHandler prior players text
      = (prior, some ("Could not import. Error: " ++ e)) := by
  unfold importHandler
  rw [h]

/-- Witness for C2: importing a CSV with the non-coercible value "abc"
leaves the prior one-round ledger untouched and surfaces one message. -/
theorem C2_import_all_or_nothing_witness :
    importHandler [[("A", 1)]] ["A", "B", "C", "D"] "Round,A\x0a1,abc"
      = ([[("A", 1)]], some "Could not import. Error: invalid literal for int()") :=
  C2_import_all_or_nothing [[("A", 1)]] ["A", "B", "C", "D"] "Round,A\x0a1,abc"
    "invalid literal for int()" rfl

/-- C6: for every ledger, the sum of a player's column across all rows of
the recalculated table appears as that player's `Total` in
`totals_and_ranks`; for the empty ledger the sum (hence the total) is 0. -/
theorem C6_totals_are_column_sums (rounds : List Round) (players : List String)
    (df : List TableRow) (j : Nat) (p : String)
    (h : recalc rounds players = .ok df) (hj : players[j]? = some p) :
    ((p, (df.map fun row => row.2.getD j 0).sum) ∈ (totalsAndRanks df players).1)
      ∧ (rounds = [] → (df.map fun row => row.2.getD j 0).sum = 0) := by
  constructor
  · show _ ∈ List.insertionSort totalLE (totalsFromTable df players)
    rw [List.mem_insertionSort, totalsFromTable_recalc h, colsum_recalc h hj]
    exact List.mem_map_of_mem _ (List.getElem?_mem hj)
  · intro hr
    rw [colsum_recalc h hj, hr]
    rfl

/-- Witness for C6: on the scenario ledger, player B's column sum 5 is B's
`Total`; and the empty-ledger clause holds vacuously there. -/
theorem C6_totals_are_column_sums_witness :
    ((("B" : String), (([(1, [5, 3, 5, 1]), (2, [2, 2, 2, 2])] : List TableRow).map
        fun row => row.2.getD 1 0).sum)
      ∈ (totalsAndRanks [(1, [5, 3, 5, 1]), (2, [2, 2, 2, 2])] ["A", "B", "C", "D"]).1)
      ∧ ([[("A", 5), ("B", 3), ("C", 5), ("D", 1)],
          [("A", 2), ("B", 2), ("C", 2), ("D", 2)]] = ([] : List Round)
          → (([(1, [5, 3, 5, 1]), (2, [2, 2, 2, 2])] : List TableRow).map
              fun row => row.2.getD 1 0).sum = 0) :=
  C6_totals_are_column_sums
    [[("A", 5), ("B", 3), ("C", 5), ("D", 1)], [("A", 2), ("B", 2), ("C", 2), ("D", 2)]]
    ["A", "B", "C", "D"] [(1, [5, 3, 5, 1]), (2, [2, 2, 2, 2])] 1 "B" rfl rfl

/-- The totals series always has one entry per configured player. -/
theorem totalsFromTable_length (df : List TableRow) (players : List String) :
    (totalsFromTable df players).length = players.length := by
  unfold totalsFromTable
  by_cases h : df.isEmpty = true
  · simp [h]
  · rw [Bool.not_eq_true] at h
    rw [h]
    simp [withIdx_length]

/-- C7: for every ledger, the leaderboard's `Rank` column is exactly
1,2,3,4 top to bottom, and the `Total` values are non-decreasing down the
rows. -/
theorem C7_ranks_increasing_totals_monotone (rounds : List Round)
    (players : List String) (df : List TableRow)
    (h : recalc rounds players = .ok df) (h4 : players.length = 4) :
    (totalsAndRanks df players).2.map Prod.fst = [1, 2, 3, 4]
      ∧ (totalsAndRanks df players).2.Pairwise fun a b => a.2.2 ≤ b.2.2 := by
  constructor
  · show (withIdx 1 (List.insertionSort totalLE (totalsFromTable df players))).map
        Prod.fst = _
    rw [withIdx_map_fst, List.length_insertionSort, totalsFromTable_length, h4]
    rfl
  · exact withIdx_pairwise 1 (List.sorted_insertionSort totalLE (totalsFromTable df players))

/-- Witness for C7: on the scenario table the ranks are [1,2,3,4] and the
totals [3,5,7,7] are non-decreasing. -/
theorem C7_ranks_increasing_totals_monotone_witness :
    (totalsAndRanks [(1, [5, 3, 5, 1]), (2, [2, 2, 2, 2])] ["A", "B", "C", "D"]).2.map
        Prod.fst = [1, 2, 3, 4]
      ∧ (totalsAndRanks [(1, [5, 3, 5, 1]), (2, [2, 2, 2, 2])]
          ["A", "B", "C", "D"]).2.Pairwise fun a b => a.2.2 ≤ b.2.2 :=
  C7_ranks_increasing_totals_monotone
    [[("A", 5), ("B", 3), ("C", 5), ("D", 1)], [("A", 2), ("B", 2), ("C", 2), ("D", 2)]]
    ["A", "B", "C", "D"] [(1, [5, 3, 5, 1]), (2, [2, 2, 2, 2])] rfl rfl

/-- C9: deleting the last round of an empty ledger is a no-op (the handler
is total, so no error is raised), and on a non-empty ledger it removes
exactly the most recently appended round. -/
theorem C9_delete_last_round :
    deleteLastRound ([] : List Round) = []
      ∧ ∀ (rounds : List Round) (r : Round),
          deleteLastRound (rounds ++ [r]) = rounds :=
  ⟨rfl, fun _ _ => List.dropLast_concat⟩

/-- C10: with a non-empty ledger, `recalc` raises `KeyError` whenever some
configured player is a key of no round (so that player is not a column of
the frame); when every configured player is a column, it succeeds and each
cell is the round's stored value with missing entries coerced to 0. -/
theorem C10_recalc_keyerror :
    (∀ (rounds : List Round) (players : List String) (p : String),
      rounds ≠ [] → p ∈ players → columnPresent rounds p = false →
        recalc rounds players = .error "KeyError")
    ∧ (∀ (rounds : List Round) (players : List String),
        (∀ p ∈ players, columnPresent rounds p = true) →
          recalc rounds players
            = .ok ((withIdx 1 rounds).map fun ir => (ir.1, players.map (cell ir.2)))) := by
  constructor
  · intro rounds players p hne hp hcol
    unfold recalc
    have hemp : rounds.isEmpty = false := by
      cases rounds with
      | nil => exact absurd rfl hne
      | cons r rs => rfl
    rw [hemp]
    simp only [Bool.false_eq_true, if_false]
    have hall : ¬players.all (columnPresent rounds) = true := by
      intro hall
      have := List.all_eq_true.mp hall p hp
      rw [hcol] at this
      cases this
    rw [if_neg hall]
  · intro rounds players hall
    unfold recalc
    cases hemp : rounds.isEmpty with
    | true =>
      have : rounds = [] := List.isEmpty_iff.mp hemp
      subst this
      rfl
    | false =>
      simp only [Bool.false_eq_true, if_false]
      rw [if_pos (List.all_eq_true.mpr hall)]

/-- Witness for C10: with one round scoring only A, looking up column B
raises `KeyError`; and on the scenario ledger all columns are present, so
`recalc` succeeds with the coerced table. -/
theorem C10_recalc_keyerror_witness :
    recalc [[("A", 5)]] ["A", "B", "C", "D"] = .error "KeyError"
      ∧ recalc [[("A", 5), ("B", 3), ("C", 5), ("D", 1)]] ["A", "B", "C", "D"]
          = .ok ((withIdx 1 [[("A", 5), ("B", 3), ("C", 5), ("D", 1)]]).map
              fun ir => (ir.1, ["A", "B", "C", "D"].map (cell ir.2))) :=
  ⟨C10_recalc_keyerror.1 [[("A", 5)]] ["A", "B", "C", "D"] "B"
      (by simp) (by simp) rfl,
    C10_recalc_keyerror.2 [[("A", 5), ("B", 3), ("C", 5), ("D", 1)]] ["A", "B", "C", "D"]
      (by decide)⟩

/-! ### CSV split/join and digit-string lemmas -/

theorem splitOnChar_cons (sep c : Char) (rest : List Char) :
    splitOnChar sep (c :: rest)
      = if c = sep then [] :: splitOnChar sep rest
        else (c :: (splitOnChar sep rest).headD []) :: (splitOnChar sep rest).tail := rfl

theorem splitOnChar_ne_nil (sep : Char) (l : List Char) : splitOnChar sep l ≠ [] := by
  cases l with
  | nil => simp [splitOnChar]
  | cons c rest =>
    unfold splitOnChar
    by_cases h : c = sep <;> simp [h]

theorem splitOnChar_no_sep {sep : Char} {x : List Char} (h : sep ∉ x) :
    splitOnChar sep x = [x] := by
  induction x with
  | nil => rfl
  | cons c r ih =>
    have hc : ¬c = sep := fun hc => h (hc ▸ List.mem_cons_self c r)
    have hr := ih fun hm => h (List.mem_cons_of_mem c hm)
    unfold splitOnChar
    rw [if_neg hc, hr]
    rfl

theorem splitOnChar_append_sep {sep : Char} {x : List Char} (z : List Char)
    (h : sep ∉ x) : splitOnChar sep (x ++ sep :: z) = x :: splitOnChar sep z := by
  induction x with
  | nil =>
    show splitOnChar sep (sep :: z) = [] :: splitOnChar sep z
    rw [splitOnChar_cons, if_pos rfl]
  | cons c x ih =>
    have hc : ¬c = sep := fun hc => h (hc ▸ List.mem_cons_self c x)
    have hx := ih fun hm => h (List.mem_cons_of_mem c hm)
    show splitOnChar sep (c :: (x ++ sep :: z)) = (c :: x) :: splitOnChar sep z
    rw [splitOnChar_cons, if_neg hc, hx]
    rfl

theorem splitOnChar_join {sep : Char} {xss : List (List Char)} (hne : xss ≠ [])
    (h : ∀ x ∈ xss, sep ∉ x) : splitOnChar sep (joinChar sep xss) = xss := by
  induction xss with
  | nil => exact absurd rfl hne
  | cons x xss ih =>
    cases xss with
    | nil => exact splitOnChar_no_sep (h x (List.mem_cons_self x []))
    | cons y t =>
      show splitOnChar sep (x ++ sep :: joinChar sep (y :: t)) = x :: y :: t
      rw [splitOnChar_append_sep _ (h x (List.mem_cons_self x _))]
      rw [ih (by simp) fun u hu => h u (List.mem_cons_of_mem x hu)]

theorem mem_joinChar {sep c : Char} {xss : List (List Char)}
    (h : c ∈ joinChar sep xss) : c = sep ∨ ∃ x ∈ xss, c ∈ x := by
  induction xss with
  | nil => simp [joinChar] at h
  | cons x xss ih =>
    cases xss with
    | nil => exact Or.inr ⟨x, List.mem_cons_self x [], h⟩
    | cons y t =>
      have h2 : c ∈ x ++ sep :: joinChar sep (y :: t) := h
      rcases List.mem_append.mp h2 with hx | hs
      · exact Or.inr ⟨x, List.mem_cons_self x _, hx⟩
      · rcases List.mem_cons.mp hs with hc | hj
        · exact Or.inl hc
        · rcases ih hj with hc | ⟨u, hu, hcu⟩
          · exact Or.inl hc
          · exact Or.inr ⟨u, List.mem_cons_of_mem x hu, hcu⟩

theorem natChars_ne_nil (n : Nat) : natChars n ≠ [] := by
  unfold natChars
  split
  · simp
  · simp

theorem digitVal_ofNat {m : Nat} (h : m < 10) :
    digitVal (Char.ofNat (48 + m)) = m := by
  interval_cases m <;> decide

theorem isDigit_ofNat {m : Nat} (h : m < 10) :
    (Char.ofNat (48 + m)).isDigit = true := by
  interval_cases m <;> decide

theorem natChars_all_digits (n : Nat) : allDigits (natChars n) = true := by
  induction n using Nat.strong_induction_on with
  | _ n ih =>
    unfold natChars
    split
    next h => simpa [allDigits] using isDigit_ofNat h
    next h =>
      have hn10 : 10 ≤ n := Nat.not_lt.mp h
      have hih := ih (n / 10) (Nat.div_lt_self (by omega) (by decide))
      have hm : n % 10 < 10 := Nat.mod_lt n (by decide)
      simp only [allDigits, List.all_append, List.all_cons, List.all_nil]
      rw [allDigits] at hih
      simp [hih, isDigit_ofNat hm]

theorem readNat_append_digit (a : List Char) (c : Char) :
    readNat (a ++ [c]) = 10 * readNat a + digitVal c := by
  simp [readNat, List.foldl_append]

theorem readNat_natChars (n : Nat) : readNat (natChars n) = n := by
  induction n using Nat.strong_induction_on with
  | _ n ih =>
    unfold natChars
    split
    next h =>
      show readNat [Char.ofNat (48 + n)] = n
      have hd := digitVal_ofNat h
      simp [readNat, hd]
    next h =>
      have hn10 : 10 ≤ n := Nat.not_lt.mp h
      rw [readNat_append_digit, ih (n / 10) (Nat.div_lt_self (by omega) (by decide)),
        digitVal_ofNat (Nat.mod_lt n (by decide))]
      omega

theorem not_dash_of_isDigit {c : Char} (h : c.isDigit = true) : c ≠ '-' := by
  intro hc
  rw [hc] at h
  cases h

theorem mem_natChars_isDigit {c : Char} {n : Nat} (h : c ∈ natChars n) :
    c.isDigit = true := by
  have := natChars_all_digits n
  rw [allDigits] at this
  exact List.all_eq_true.mp this c h

theorem coerceMag_natChars (n : Nat) : coerceMag (natChars n) = .ok (n : Int) := by
  unfold coerceMag
  rw [if_pos]
  · rw [readNat_natChars]
  · have hne : (natChars n).isEmpty = false := by
      cases hc : natChars n with
      | nil => exact absurd hc (natChars_ne_nil n)
      | cons c r => rfl
    rw [hne, natChars_all_digits]
    rfl

theorem coerceCell_natChars (n : Nat) : coerceCell (natChars n) = .ok (n : Int) := by
  unfold coerceCell
  rw [if_neg, coerceMag_natChars]
  cases hc : natChars n with
  | nil => exact absurd hc (natChars_ne_nil n)
  | cons c r =>
    have hcd : c.isDigit = true := mem_natChars_isDigit (hc ▸ List.mem_cons_self c r)
    simpa using not_dash_of_isDigit hcd

theorem coerceCell_intChars {v : Int} (hv : 0 ≤ v) :
    coerceCell (intChars v) = .ok v := by
  unfold intChars
  rw [if_neg (by omega), coerceCell_natChars, Int.toNat_of_nonneg hv]

/-! ### Lemmas about `mapEx` and dict lookup -/

theorem mapEx_error_of_mem {f : α → Except String β} {l : List α} {a : α}
    {e : String} (ha : a ∈ l) (hf : f a = .error e) :
    ∃ e2, mapEx f l = .error e2 := by
  induction l with
  | nil => cases ha
  | cons b l ih =>
    rcases List.mem_cons.mp ha with hab | hal
    · subst hab
      exact ⟨e, by rw [mapEx, hf]⟩
    · cases hb : f b with
      | error eb => exact ⟨eb, by rw [mapEx, hb]⟩
      | ok vb =>
        obtain ⟨e2, h2⟩ := ih hal
        exact ⟨e2, by rw [mapEx, hb, h2]⟩

theorem mapEx_ok_forall2 {f : α → Except String β} :
    ∀ {l : List α} {bs : List β}, mapEx f l = .ok bs →
      List.Forall₂ (fun a b => f a = .ok b) l bs := by
  intro l
  induction l with
  | nil =>
    intro bs h
    rw [mapEx] at h
    cases h
    exact List.Forall₂.nil
  | cons a l ih =>
    intro bs h
    rw [mapEx] at h
    cases ha : f a with
    | error e => rw [ha] at h; cases h
    | ok b =>
      rw [ha] at h
      cases hl : mapEx f l with
      | error e => rw [hl] at h; cases h
      | ok bl =>
        rw [hl] at h
        cases h
        exact List.Forall₂.cons ha (ih hl)

theorem mapEx_ok_of_forall {f : α → Except String β} {l : List α}
    (h : ∀ a ∈ l, ∃ b, f a = .ok b) :
    ∃ bs, mapEx f l = .ok bs := by
  induction l with
  | nil => exact ⟨[], rfl⟩
  | cons a l ih =>
    obtain ⟨b, hb⟩ := h a (List.mem_cons_self a l)
    obtain ⟨bs, hbs⟩ := ih fun x hx => h x (List.mem_cons_of_mem a hx)
    exact ⟨b :: bs, by rw [mapEx, hb, hbs]⟩

theorem mapEx_eq_ok_map {f : α → Except String β} {g : α → β} {l : List α}
    (h : ∀ a ∈ l, f a = .ok (g a)) : mapEx f l = .ok (l.map g) := by
  induction l with
  | nil => rfl
  | cons a l ih =>
    rw [mapEx, h a (List.mem_cons_self a l), ih fun x hx => h x (List.mem_cons_of_mem a hx)]
    rfl

theorem mapEx_map (f : β → Except String γ) (h : α → β) (l : List α) :
    mapEx f (l.map h) = mapEx (fun a => f (h a)) l := by
  induction l with
  | nil => rfl
  | cons a l ih => rw [List.map_cons, mapEx, mapEx, ih]

theorem mapEx_ok_pos {f : α → Except String β} :
    ∀ {l : List α} {bs : List β}, l.length = bs.length →
      (∀ (k : Nat) (a : α) (b : β), l[k]? = some a → bs[k]? = some b → f a = .ok b) →
      mapEx f l = .ok bs := by
  intro l
  induction l with
  | nil =>
    intro bs hlen _
    cases bs with
    | nil => rfl
    | cons b bs => cases hlen
  | cons a l ih =>
    intro bs hlen h
    cases bs with
    | nil => cases hlen
    | cons b bs =>
      have ha : f a = .ok b := h 0 a b (by simp) (by simp)
      have htail : mapEx f l = .ok bs :=
        ih (by simpa using hlen) fun k x y hx hy => h (k + 1) x y (by simpa using hx)
          (by simpa using hy)
      rw [mapEx, ha, htail]

theorem forall2_mem_right {R : α → β → Prop} :
    ∀ {l : List α} {bs : List β}, List.Forall₂ R l bs → ∀ b ∈ bs, ∃ a ∈ l, R a b := by
  intro l bs h
  induction h with
  | nil => intro b hb; cases hb
  | cons hab _ ih =>
    intro b hb
    rcases List.mem_cons.mp hb with hb | hb
    · subst hb
      exact ⟨_, List.mem_cons_self _ _, hab⟩
    · obtain ⟨a, ha, har⟩ := ih b hb
      exact ⟨a, List.mem_cons_of_mem _ ha, har⟩

theorem rget_mem {p : String} {r : Round} {v : Int} (h : rget p r = some v) :
    (p, v) ∈ r := by
  induction r with
  | nil => cases h
  | cons e r ih =>
    rcases e with ⟨q, w⟩
    rw [rget] at h
    by_cases hq : q = p
    · rw [if_pos hq] at h
      cases h
      subst hq
      exact List.mem_cons_self _ _
    · rw [if_neg hq] at h
      exact List.mem_cons_of_mem _ (ih h)

theorem rget_zip_isSome {p : String} :
    ∀ {ps : List String} {vs : List Int}, p ∈ ps → ps.length ≤ vs.length →
      (rget p (ps.zip vs)).isSome = true := by
  intro ps
  induction ps with
  | nil => intro vs hp; cases hp
  | cons q ps ih =>
    intro vs hp hlen
    cases vs with
    | nil => cases hlen
    | cons v vs =>
      show (rget p ((q, v) :: ps.zip vs)).isSome = true
      rw [rget]
      by_cases hq : q = p
      · rw [if_pos hq]; rfl
      · rw [if_neg hq]
        have hp2 : p ∈ ps := by
          rcases List.mem_cons.mp hp with h | h
          · exact absurd h.symm hq
          · exact h
        exact ih hp2 (by simpa using hlen)

theorem rget_zip_forall2 {f : String → Except String Int} {p : String} :
    ∀ {ps : List String} {vs : List Int},
      List.Forall₂ (fun a b => f a = .ok b) ps vs → p ∈ ps →
      ∃ w, rget p (ps.zip vs) = some w ∧ f p = .ok w := by
  intro ps vs h
  induction h with
  | nil => intro hp; cases hp
  | @cons q w ps vs hqw _ ih =>
    intro hp
    show ∃ u, rget p ((q, w) :: ps.zip vs) = some u ∧ f p = .ok u
    by_cases hq : q = p
    · subst hq
      exact ⟨w, by rw [rget, if_pos rfl], hqw⟩
    · have hp2 : p ∈ ps := by
        rcases List.mem_cons.mp hp with h | h
        · exact absurd h.symm hq
        · exact h
      obtain ⟨u, hu, hfu⟩ := ih hp2
      exact ⟨u, by rw [rget, if_neg hq]; exact hu, hfu⟩

theorem map_cell_zip :
    ∀ {ps : List String} {vs : List Int}, ps.Nodup → vs.length = ps.length →
      ps.map (cell (ps.zip vs)) = vs := by
  intro ps
  induction ps with
  | nil =>
    intro vs _ hlen
    cases vs with
    | nil => rfl
    | cons v vs => cases hlen
  | cons q ps ih =>
    intro vs hnd hlen
    cases vs with
    | nil => cases hlen
    | cons v vs =>
      show cell ((q, v) :: ps.zip vs) q :: ps.map (cell ((q, v) :: ps.zip vs)) = v :: vs
      have hq : cell ((q, v) :: ps.zip vs) q = v := by
        unfold cell
        rw [rget, if_pos rfl]
        rfl
      have hnotin : q ∉ ps := (List.nodup_cons.mp hnd).1
      have htail : ps.map (cell ((q, v) :: ps.zip vs)) = ps.map (cell (ps.zip vs)) :=
        List.map_congr_left fun p hp => by
          unfold cell
          rw [rget, if_neg fun hqp : q = p => hnotin (hqp ▸ hp)]
      rw [hq, htail, ih (List.nodup_cons.mp hnd).2 (by simpa using hlen)]

/-! ### Claim theorems: import failure, invariants, missing columns -/

/-- C3 counterexample: the player-column value "2.5" is not an integer,
yet the import succeeds — pandas parses it as a float and Python `int`
truncates it to 2 instead of raising — refuting the claim that any
non-integer value fails the whole import. -/
theorem C3_float_truncates_counterexample :
    importCSV ["A", "B", "C", "D"] "Round,A,B,C,D\x0a1,2.5,0,0,0\x0a"
      = .ok [[("A", 2), ("B", 0), ("C", 0), ("D", 0)]] := rfl

/-- C3 amended: the import fails whenever some configured player column
that is present in the header contains, in some row, a value that is not
numerically coercible (non-numeric text, or an empty/absent cell);
numeric non-integers such as "2.5" are truncated, not rejected. -/
theorem C3_import_fails_on_noncoercible (players : List String) (text : String)
    (cols : List (List Char)) (rows : List (List (List Char))) (p : String)
    (j : Nat) (row : List (List Char)) (e : String)
    (hparse : parseCSV text = .ok (cols, rows)) (hp : p ∈ players)
    (hj : firstIdx (· == p.data) cols = some j) (hrow : row ∈ rows)
    (hcell : coerceCell (row.getD j []) = .error e) :
    ∃ e2, importCSV players text = .error e2 := by
  have hget : getCell cols row p = .error e := by
    unfold getCell
    rw [hj]
    exact hcell
  obtain ⟨e1, hinner⟩ := mapEx_error_of_mem hp hget
  have hF : importRow players cols row = .error e1 := by
    unfold importRow
    rw [hinner]
  obtain ⟨e2, houter⟩ := mapEx_error_of_mem hrow hF
  refine ⟨e2, ?_⟩
  unfold importCSV
  rw [hparse]
  exact houter

/-- Witness for the amended C3: the non-numeric value "abc" in column A
makes the import fail. -/
theorem C3_import_fails_on_noncoercible_witness :
    ∃ e2, importCSV ["A", "B", "C", "D"] "Round,A,B,C,D\x0a1,abc,0,0,0\x0a"
      = .error e2 :=
  C3_import_fails_on_noncoercible ["A", "B", "C", "D"]
    "Round,A,B,C,D\x0a1,abc,0,0,0\x0a"
    [['R', 'o', 'u', 'n', 'd'], ['A'], ['B'], ['C'], ['D']]
    [[['1'], ['a', 'b', 'c'], ['0'], ['0'], ['0']]]
    "A" 1 [['1'], ['a', 'b', 'c'], ['0'], ['0'], ['0']]
    "invalid literal for int()" rfl (by simp) rfl (by simp) rfl

/-- Every round of a ledger maps every configured player to some value. -/
def allPlayersMapped (rounds : List Round) (players : List String) : Prop :=
  ∀ r ∈ rounds, ∀ p ∈ players, (rget p r).isSome = true

/-- Every stored score in the ledger is non-negative. -/
def allScoresNonneg (rounds : List Round) : Prop :=
  ∀ r ∈ rounds, ∀ e ∈ r, 0 ≤ e.2

/-- Decomposition of a successful import: each resulting round is the
configured players zipped with the scores its CSV row coerced to. -/
theorem importCSV_ok_mem {players : List String} {text : String}
    {rs : List Round} (h : importCSV players text = .ok rs) {r : Round}
    (hr : r ∈ rs) :
    ∃ cols rows row scores, parseCSV text = .ok (cols, rows) ∧ row ∈ rows
      ∧ mapEx (getCell cols row) players = .ok scores ∧ r = players.zip scores := by
  unfold importCSV at h
  cases hp : parseCSV text with
  | error e => rw [hp] at h; cases h
  | ok cr =>
    rcases cr with ⟨cols, rows⟩
    rw [hp] at h
    have hf2 := mapEx_ok_forall2 h
    obtain ⟨row, hrow, hFrow⟩ := forall2_mem_right hf2 r hr
    unfold importRow at hFrow
    cases hm : mapEx (getCell cols row) players with
    | error e => rw [hm] at hFrow; cases hFrow
    | ok scores =>
      rw [hm] at hFrow
      exact ⟨cols, rows, row, scores, rfl, hrow, hm, (Except.ok.inj hFrow).symm⟩

/-- C5 counterexample: importing a CSV containing the value -3 succeeds
and stores a negative score, refuting the claim that every operation
leaves all scores ≥ 0. -/
theorem C5_negative_import_counterexample :
    importCSV ["A", "B", "C", "D"] "Round,A,B,C,D\x0a1,-3,0,0,0\x0a"
      = .ok [[("A", -3), ("B", 0), ("C", 0), ("D", 0)]]
      ∧ ¬((0 : Int) ≤ -3) :=
  ⟨rfl, by decide⟩

/-- C5 amended: adding a round (with the UI's non-negative inputs),
deleting the last round and resetting preserve the invariant that every
round maps each configured player to a score ≥ 0; a successful import
still maps every configured player in every round, but the imported score
is only an integer — it can be negative when the CSV contains negative
values. -/
theorem C5_invariant_amended :
    (∀ (rounds : List Round) (players : List String) (scores : List Nat),
      players.length = scores.length →
      allPlayersMapped rounds players → allScoresNonneg rounds →
      allPlayersMapped (addRound rounds players scores) players
        ∧ allScoresNonneg (addRound rounds players scores))
    ∧ (∀ (rounds : List Round) (players : List String),
        allPlayersMapped rounds players → allScoresNonneg rounds →
        allPlayersMapped (deleteLastRound rounds) players
          ∧ allScoresNonneg (deleteLastRound rounds))
    ∧ (∀ (rounds : List Round) (players : List String),
        allPlayersMapped (resetGame rounds) players
          ∧ allScoresNonneg (resetGame rounds))
    ∧ (∀ (players : List String) (text : String) (rs : List Round),
        importCSV players text = .ok rs → allPlayersMapped rs players) := by
  refine ⟨?_, ?_, ?_, ?_⟩
  · intro rounds players scores hlen h1 h2
    constructor
    · intro r hr p hp
      rcases List.mem_append.mp hr with hold | hnew
      · exact h1 r hold p hp
      · have hr2 : r = players.zip (scores.map Int.ofNat) := List.mem_singleton.mp hnew
        subst hr2
        exact rget_zip_isSome hp (by simpa using Nat.le_of_eq hlen)
    · intro r hr e he
      rcases List.mem_append.mp hr with hold | hnew
      · exact h2 r hold e he
      · have hr2 : r = players.zip (scores.map Int.ofNat) := List.mem_singleton.mp hnew
        subst hr2
        have he2 : e.2 ∈ scores.map Int.ofNat := (List.of_mem_zip he).2
        obtain ⟨k, _, hk⟩ := List.mem_map.mp he2
        rw [← hk]
        exact Int.natCast_nonneg k
  · intro rounds players h1 h2
    exact ⟨fun r hr p hp => h1 r ((List.dropLast_sublist rounds).subset hr) p hp,
      fun r hr e he => h2 r ((List.dropLast_sublist rounds).subset hr) e he⟩
  · intro rounds players
    exact ⟨fun r hr => absurd hr (List.not_mem_nil r),
      fun r hr => absurd hr (List.not_mem_nil r)⟩
  · intro players text rs h r hr p hp
    obtain ⟨cols, rows, row, scores, _, _, hm, hr2⟩ := importCSV_ok_mem h hr
    subst hr2
    have hlen : players.length = scores.length := (mapEx_ok_forall2 hm).length_eq
    exact rget_zip_isSome hp (Nat.le_of_eq hlen)

/-- Witness for the amended C5: adding the scenario's first round to the
empty ledger keeps every player mapped to a non-negative score. -/
theorem C5_invariant_amended_witness :
    allPlayersMapped (addRound [] ["A", "B", "C", "D"] [5, 3, 5, 1]) ["A", "B", "C", "D"]
      ∧ allScoresNonneg (addRound [] ["A", "B", "C", "D"] [5, 3, 5, 1]) :=
  C5_invariant_amended.1 [] ["A", "B", "C", "D"] [5, 3, 5, 1] rfl
    (fun r hr => absurd hr (List.not_mem_nil r))
    (fun r hr => absurd hr (List.not_mem_nil r))

/-- C8 counterexample: a CSV whose header is missing column C but whose A
column holds "abc" fails to import, refuting the claim that every CSV
missing column C imports successfully. -/
theorem C8_missing_column_counterexample :
    importCSV ["A", "B", "C", "D"] "Round,A,B,D\x0a1,abc,2,3\x0a"
      = .error "invalid literal for int()" := rfl

/-- C8 amended: if the header has no column for configured player `p` and
every player column that is present coerces in every row, the import
succeeds and `p`'s score is 0 in every resulting round. -/
theorem C8_missing_column_coerces_zero (players : List String) (text : String)
    (cols : List (List Char)) (rows : List (List (List Char))) (p : String)
    (hparse : parseCSV text = .ok (cols, rows)) (hp : p ∈ players)
    (hmissing : firstIdx (· == p.data) cols = none)
    (hok : ∀ row ∈ rows, ∀ q ∈ players, ∃ v, getCell cols row q = .ok v) :
    ∃ rs, importCSV players text = .ok rs ∧ rs.length = rows.length
      ∧ ∀ r ∈ rs, rget p r = some 0 := by
  have hrowok : ∀ row ∈ rows, ∃ r, importRow players cols row = .ok r := by
    intro row hrow
    obtain ⟨scores, hs⟩ := mapEx_ok_of_forall (hok row hrow)
    exact ⟨players.zip scores, by unfold importRow; rw [hs]⟩
  obtain ⟨rs, houter⟩ := mapEx_ok_of_forall hrowok
  have himp : importCSV players text = .ok rs := by
    unfold importCSV
    rw [hparse]
    exact houter
  refine ⟨rs, himp, ((mapEx_ok_forall2 houter).length_eq).symm, ?_⟩
  intro r hr
  obtain ⟨row, hrow, hFrow⟩ := forall2_mem_right (mapEx_ok_forall2 houter) r hr
  unfold importRow at hFrow
  cases hm : mapEx (getCell cols row) players with
  | error e => rw [hm] at hFrow; cases hFrow
  | ok scores =>
    rw [hm] at hFrow
    have hr2 : r = players.zip scores := (Except.ok.inj hFrow).symm
    subst hr2
    obtain ⟨w, hw, hfw⟩ := rget_zip_forall2 (mapEx_ok_forall2 hm) hp
    have hget0 : getCell cols row p = .ok 0 := by
      unfold getCell
      rw [hmissing]
    rw [hget0] at hfw
    rw [hw, Except.ok.inj hfw]

/-- Witness for the amended C8: importing a CSV without column C succeeds
and gives C score 0 in the single resulting round. -/
theorem C8_missing_column_coerces_zero_witness :
    ∃ rs, importCSV ["A", "B", "C", "D"] "Round,A,B,D\x0a1,7,3,1\x0a" = .ok rs
      ∧ rs.length = 1 ∧ ∀ r ∈ rs, rget "C" r = some 0 :=
  C8_missing_column_coerces_zero ["A", "B", "C", "D"] "Round,A,B,D\x0a1,7,3,1\x0a"
    [['R', 'o', 'u', 'n', 'd'], ['A'], ['B'], ['D']]
    [[['1'], ['7'], ['3'], ['1']]] "C" rfl (by simp) rfl
    (by
      intro row hrow q hq
      have hr : row = [['1'], ['7'], ['3'], ['1']] := List.mem_singleton.mp hrow
      subst hr
      fin_cases hq <;> exact ⟨_, rfl⟩)

/-! ### The CSV round trip -/

/-- A player name `to_csv` writes verbatim and `read_csv` reads back as
the same header cell: non-empty, not the reserved column name `Round`,
and free of separators, quotes and carriage returns. -/
def csvSafe (p : String) : Prop :=
  p.data ≠ [] ∧ p ≠ "Round"
    ∧ ∀ c ∈ p.data, c ≠ ',' ∧ c ≠ '\x0a' ∧ c ≠ '\x22' ∧ c ≠ '\x0d'

instance (p : String) : Decidable (csvSafe p) := by
  unfold csvSafe
  infer_instance

theorem digit_ne_comma_newline {c : Char} (h : c.isDigit = true) :
    c ≠ ',' ∧ c ≠ '\x0a' := by
  constructor <;> intro hc <;> rw [hc] at h <;> cases h

theorem mem_intChars_isDigit {c : Char} {v : Int} (hv : 0 ≤ v)
    (h : c ∈ intChars v) : c.isDigit = true := by
  unfold intChars at h
  rw [if_neg (by omega)] at h
  exact mem_natChars_isDigit h

theorem cell_nonneg {r : Round} (h : ∀ e ∈ r, 0 ≤ e.2) (p : String) :
    0 ≤ cell r p := by
  unfold cell
  cases hg : rget p r with
  | none => exact le_refl 0
  | some v => exact h (p, v) (rget_mem hg)

theorem comma_not_mem_rowCells {row : TableRow}
    (hnn : ∀ v ∈ row.2, 0 ≤ v) : ∀ x ∈ rowCells row, ',' ∉ x := by
  intro x hx hc
  rcases List.mem_cons.mp hx with hx | hx
  · subst hx
    exact (digit_ne_comma_newline (mem_natChars_isDigit hc)).1 rfl
  · obtain ⟨v, hv, hvx⟩ := List.mem_map.mp hx
    subst hvx
    exact (digit_ne_comma_newline (mem_intChars_isDigit (hnn v hv) hc)).1 rfl

theorem newline_not_mem_rowLine {row : TableRow}
    (hnn : ∀ v ∈ row.2, 0 ≤ v) : '\x0a' ∉ rowLine row := by
  intro h
  rcases mem_joinChar h with hc | ⟨x, hx, hcx⟩
  · cases hc
  · rcases List.mem_cons.mp hx with hx | hx
    · subst hx
      exact (digit_ne_comma_newline (mem_natChars_isDigit hcx)).2 rfl
    · obtain ⟨v, hv, hvx⟩ := List.mem_map.mp hx
      subst hvx
      exact (digit_ne_comma_newline (mem_intChars_isDigit (hnn v hv) hcx)).2 rfl

theorem comma_not_mem_headerCells {players : List String}
    (hs : ∀ p ∈ players, csvSafe p) : ∀ x ∈ headerCells players, ',' ∉ x := by
  intro x hx hc
  rcases List.mem_cons.mp hx with hx | hx
  · subst hx
    simp at hc
  · obtain ⟨p, hp, hpx⟩ := List.mem_map.mp hx
    subst hpx
    exact ((hs p hp).2.2 ',' hc).1 rfl

theorem newline_not_mem_headerLine {players : List String}
    (hs : ∀ p ∈ players, csvSafe p) : '\x0a' ∉ headerLine players := by
  intro h
  rcases mem_joinChar h with hc | ⟨x, hx, hcx⟩
  · cases hc
  · rcases List.mem_cons.mp hx with hx | hx
    · subst hx
      simp at hcx
    · obtain ⟨p, hp, hpx⟩ := List.mem_map.mp hx
      subst hpx
      exact ((hs p hp).2.2 _ hcx).2.1 rfl

theorem joinChar_cons_ne_nil {sep : Char} {x : List Char}
    (hx : x ≠ []) (xs : List (List Char)) : joinChar sep (x :: xs) ≠ [] := by
  cases xs with
  | nil => exact hx
  | cons y t =>
    show x ++ sep :: joinChar sep (y :: t) ≠ []
    simp

theorem headerLine_ne_nil (players : List String) : headerLine players ≠ [] :=
  joinChar_cons_ne_nil (by simp) _

theorem rowLine_ne_nil (row : TableRow) : rowLine row ≠ [] :=
  joinChar_cons_ne_nil (natChars_ne_nil row.1) _

theorem parse_exportCSV {players : List String} {df : List TableRow}
    (hs : ∀ p ∈ players, csvSafe p)
    (hnn : ∀ row ∈ df, ∀ v ∈ row.2, 0 ≤ v)
    (hlen : ∀ row ∈ df, row.2.length = players.length) :
    parseCSV (exportCSV players df) = .ok (headerCells players, df.map rowCells) := by
  unfold parseCSV exportCSV
  have hdata : (String.mk (joinChar '\x0a' ((headerLine players :: df.map rowLine) ++ [[]]))).data
      = joinChar '\x0a' ((headerLine players :: df.map rowLine) ++ [[]]) := rfl
  rw [hdata]
  rw [splitOnChar_join (by simp) ?nonl]
  case nonl =>
    intro x hx
    rcases List.mem_append.mp hx with hx | hx
    · rcases List.mem_cons.mp hx with hx | hx
      · subst hx
        exact newline_not_mem_headerLine hs
      · obtain ⟨row, hrow, hrx⟩ := List.mem_map.mp hx
        subst hrx
        exact newline_not_mem_rowLine (hnn row hrow)
    · have : x = [] := List.mem_singleton.mp hx
      subst this
      simp
  have hfilter : ((headerLine players :: df.map rowLine) ++ [[]]).filter
      (fun l => !l.isEmpty) = headerLine players :: df.map rowLine := by
    rw [List.filter_append]
    have h1 : (headerLine players :: df.map rowLine).filter (fun l => !l.isEmpty)
        = headerLine players :: df.map rowLine := by
      apply List.filter_eq_self.mpr
      intro x hx
      rcases List.mem_cons.mp hx with hx | hx
      · subst hx
        cases hh : headerLine players with
        | nil => exact absurd hh (headerLine_ne_nil players)
        | cons c t => rfl
      · obtain ⟨row, _, hrx⟩ := List.mem_map.mp hx
        subst hrx
        cases hh : rowLine row with
        | nil => exact absurd hh (rowLine_ne_nil row)
        | cons c t => rfl
    rw [h1]
    simp
  rw [hfilter]
  have hcols : splitOnChar ',' (headerLine players) = headerCells players :=
    splitOnChar_join (by simp [headerCells]) (comma_not_mem_headerCells hs)
  have hrows : (df.map rowLine).map (splitOnChar ',') = df.map rowCells := by
    rw [List.map_map]
    exact List.map_congr_left fun row hrow =>
      splitOnChar_join (by simp [rowCells]) (comma_not_mem_rowCells (hnn row hrow))
  show (if ((df.map rowLine).map (splitOnChar ',')).any
        (fun r => (splitOnChar ',' (headerLine players)).length < r.length) = true
      then Except.error "Error tokenizing data"
      else Except.ok (splitOnChar ',' (headerLine players),
        (df.map rowLine).map (splitOnChar ','))) = _
  rw [hcols, hrows]
  rw [if_neg]
  intro hany
  obtain ⟨x, hx, hxlen⟩ := List.any_eq_true.mp hany
  obtain ⟨row, hrow, hrx⟩ := List.mem_map.mp hx
  subst hrx
  have h1 : (headerCells players).length = players.length + 1 := by
    simp [headerCells]
  have h2 : (rowCells row).length = row.2.length + 1 := by
    simp [rowCells]
  rw [h1, h2, hlen row hrow] at hxlen
  have : players.length + 1 < players.length + 1 := of_decide_eq_true hxlen
  omega

theorem beq_data_eq_false {a b : String} (h : a ≠ b) :
    (a.data == b.data) = false := by
  apply beq_eq_false_iff_ne.mpr
  intro hd
  exact h (congrArg String.mk hd)

theorem firstIdx_map_data :
    ∀ {players : List String} {k : Nat} {p : String}, players.Nodup →
      players[k]? = some p →
      firstIdx (· == p.data) (players.map String.data) = some k := by
  intro players
  induction players with
  | nil => intro k p _ hk; simp at hk
  | cons q ps ih =>
    intro k p hnd hk
    cases k with
    | zero =>
      have hqp : q = p := by simpa using hk
      subst hqp
      show firstIdx (· == q.data) (q.data :: ps.map String.data) = some 0
      rw [firstIdx]
      simp
    | succ k =>
      have hk2 : ps[k]? = some p := by simpa using hk
      have hp : p ∈ ps := List.getElem?_mem hk2
      have hq : q ∉ ps := (List.nodup_cons.mp hnd).1
      have hne : q ≠ p := fun hh => hq (hh ▸ hp)
      show firstIdx (· == p.data) (q.data :: ps.map String.data) = some (k + 1)
      rw [firstIdx]
      simp only [beq_data_eq_false hne, Bool.false_eq_true, if_false,
        ih (List.nodup_cons.mp hnd).2 hk2, Option.map_some']

theorem firstIdx_header {players : List String} {k : Nat} {p : String}
    (hnd : players.Nodup) (hsp : csvSafe p) (hk : players[k]? = some p) :
    firstIdx (· == p.data) (headerCells players) = some (k + 1) := by
  have hne : ("Round" : String) ≠ p := fun hh => hsp.2.1 hh.symm
  show firstIdx (· == p.data) ("Round".data :: players.map String.data) = some (k + 1)
  rw [firstIdx]
  simp only [beq_data_eq_false hne, Bool.false_eq_true, if_false,
    firstIdx_map_data hnd hk, Option.map_some']

theorem getCell_export_row {players : List String} {row : TableRow} {k : Nat}
    {p : String} {v : Int} (hnd : players.Nodup) (hsp : csvSafe p)
    (hk : players[k]? = some p) (hv : row.2[k]? = some v) (hnnv : 0 ≤ v) :
    getCell (headerCells players) (rowCells row) p = .ok v := by
  unfold getCell
  rw [firstIdx_header hnd hsp hk]
  show coerceCell ((natChars row.1 :: row.2.map intChars).getD (k + 1) []) = .ok v
  have hcell : (natChars row.1 :: row.2.map intChars).getD (k + 1) [] = intChars v := by
    rw [List.getD_cons_succ, List.getD_eq_getElem?_getD, List.getElem?_map, hv]
    rfl
  rw [hcell]
  exact coerceCell_intChars hnnv

theorem importRow_export {players : List String} {row : TableRow}
    (hnd : players.Nodup) (hs : ∀ p ∈ players, csvSafe p)
    (hlen : row.2.length = players.length) (hnn : ∀ v ∈ row.2, 0 ≤ v) :
    importRow players (headerCells players) (rowCells row)
      = .ok (players.zip row.2) := by
  have hinner : mapEx (getCell (headerCells players) (rowCells row)) players
      = .ok row.2 := by
    apply mapEx_ok_pos hlen.symm
    intro k p v hp hv
    exact getCell_export_row hnd (hs p (List.getElem?_mem hp)) hp hv
      (hnn v (List.getElem?_mem hv))
  unfold importRow
  rw [hinner]

/-- C4: the round-trip law.  For every ledger of non-negative integer
scores whose table `recalc` computes (and CSV-safe, pairwise-distinct
player names), exporting the table and importing the text back into an
empty session with the same players yields a ledger whose recalculated
table — `Round` numbers regenerated 1..N — is the original table. -/
theorem C4_export_import_round_trip (rounds : List Round)
    (players : List String) (df : List TableRow) (hnd : players.Nodup)
    (hs : ∀ p ∈ players, csvSafe p) (h : recalc rounds players = .ok df)
    (hnn : ∀ r ∈ rounds, ∀ e ∈ r, 0 ≤ e.2) :
    ∃ rounds2, importCSV players (exportCSV players df) = .ok rounds2
      ∧ recalc rounds2 players = .ok df := by
  have hrowfacts : ∀ row ∈ df, ∃ r ∈ rounds, row.2 = players.map (cell r) := by
    intro row hrow
    cases he : rounds.isEmpty with
    | true =>
      obtain ⟨hr, hd⟩ := recalc_ok_empty h he
      subst hd
      cases hrow
    | false =>
      have hdf := recalc_ok_nonempty h he
      rw [hdf] at hrow
      obtain ⟨ir, hir, hireq⟩ := List.mem_map.mp hrow
      exact ⟨ir.2, snd_mem_of_mem_withIdx hir, by rw [← hireq]⟩
  have hlenr : ∀ row ∈ df, row.2.length = players.length := by
    intro row hrow
    obtain ⟨r, _, h2⟩ := hrowfacts row hrow
    rw [h2]
    simp
  have hnnr : ∀ row ∈ df, ∀ v ∈ row.2, 0 ≤ v := by
    intro row hrow v hv
    obtain ⟨r, hrr, h2⟩ := hrowfacts row hrow
    rw [h2] at hv
    obtain ⟨q, _, hq⟩ := List.mem_map.mp hv
    rw [← hq]
    exact cell_nonneg (hnn r hrr) q
  have hparse := parse_exportCSV hs hnnr hlenr
  have himp : importCSV players (exportCSV players df)
      = .ok (df.map fun row => players.zip row.2) := by
    unfold importCSV
    rw [hparse]
    show mapEx (importRow players (headerCells players)) (df.map rowCells)
      = .ok (df.map fun row => players.zip row.2)
    rw [mapEx_map]
    exact mapEx_eq_ok_map fun row hrow =>
      importRow_export hnd hs (hlenr row hrow) (hnnr row hrow)
  refine ⟨df.map fun row => players.zip row.2, himp, ?_⟩
  cases he : rounds.isEmpty with
  | true =>
    obtain ⟨hr, hd⟩ := recalc_ok_empty h he
    subst hd
    rfl
  | false =>
    have hdf := recalc_ok_nonempty h he
    have hne3 : rounds ≠ [] := by
      intro hh
      rw [hh] at he
      cases he
    have hr2 : df.map (fun row => players.zip row.2)
        = rounds.map fun r => players.zip (players.map (cell r)) := by
      rw [hdf, List.map_map]
      exact withIdx_map_comp (fun r => players.zip (players.map (cell r))) rounds 1
    rw [hr2]
    unfold recalc
    have hne4 : ((rounds.map fun r => players.zip (players.map (cell r))).isEmpty)
        = false := by
      cases rounds with
      | nil => exact absurd rfl hne3
      | cons a l => rfl
    rw [hne4]
    simp only [Bool.false_eq_true, if_false]
    have hall : players.all
        (columnPresent (rounds.map fun r => players.zip (players.map (cell r))))
        = true := by
      apply List.all_eq_true.mpr
      intro p hp
      unfold columnPresent
      apply List.any_eq_true.mpr
      obtain ⟨r0, hr0⟩ := List.exists_mem_of_ne_nil rounds hne3
      refine ⟨players.zip (players.map (cell r0)), List.mem_map_of_mem _ hr0, ?_⟩
      exact rget_zip_isSome hp (by simp)
    rw [if_pos hall]
    have htab : (withIdx 1 (rounds.map fun r => players.zip (players.map (cell r)))).map
        (fun ir => (ir.1, players.map (cell ir.2))) = df := by
      rw [withIdx_map, List.map_map]
      have hstep : (withIdx 1 rounds).map
          (fun x => (x.1, players.map (cell (players.zip (players.map (cell x.2))))))
          = (withIdx 1 rounds).map fun x => (x.1, players.map (cell x.2)) :=
        List.map_congr_left fun x _ => by
          rw [map_cell_zip hnd (by simp)]
      exact hstep.trans hdf.symm
    rw [htab]

/-- Witness for C4: the scenario table round-trips through export and
re-import with the same four player names. -/
theorem C4_export_import_round_trip_witness :
    ∃ rounds2, importCSV ["A", "B", "C", "D"]
        (exportCSV ["A", "B", "C", "D"] [(1, [5, 3, 5, 1]), (2, [2, 2, 2, 2])])
        = .ok rounds2
      ∧ recalc rounds2 ["A", "B", "C", "D"]
          = .ok [(1, [5, 3, 5, 1]), (2, [2, 2, 2, 2])] :=
  C4_export_import_round_trip
    [[("A", 5), ("B", 3), ("C", 5), ("D", 1)], [("A", 2), ("B", 2), ("C", 2), ("D", 2)]]
    ["A", "B", "C", "D"] [(1, [5, 3, 5, 1]), (2, [2, 2, 2, 2])]
    (by decide) (by decide) rfl (by decide)

end CardScoresheet

